import Mathlib

/-!
# rancher/network-diagnostics: the log-collection job registry

A shallow embedding of `server/server.go`.

* A `Log` is the Go struct `Log` (with the `Id` and `Type` of the embedded
  `client.Resource`).
* The Go field `logs map[string]*Log` holds *pointers*.  The embedding keeps the
  pointed-to records in `Server.heap` (an address is an index into it) and the map
  itself in `Server.logs`, a list of `(key, address)` entries.  Go iterates a map in
  an unspecified order, so only membership in a listing is meaningful.
* Each handler touches the registry inside one `s.Lock()` section; the sections of
  concurrent requests and of the background collectors are interleaved.  An
  `Event` is one such atomic section, and `runEvents` executes a schedule.
  `LoadLogDetails` assigns `DownloadURL` right after its section; the event `get`
  takes the lookup, the assignment and the response together.
* The environment enters as parameters: the clock reading of `time.Now().UnixNano()`,
  the result of `ioutil.ReadDir("/logs")`, the result of `cmd.Run()`, the `logId`
  route variable and the request URL `apiContext.UrlBuilder.Current()`.
-/

namespace NetworkDiagnostics

/-! ## Data model -/

/-- Go struct `Log`; `ResourceType` is the field `Type` of `client.Resource`. -/
structure Log where
  Id : String
  ResourceType : String
  FileName : String
  State : String
  DownloadURL : String
  Self : String
deriving DecidableEq, Repr

/-- Go type `map[string]*Log`: entries `(key, address)`. -/
abbrev LogMap := List (String × Nat)

/-- Go `m[k]` with the comma-ok form: the address stored under `k`, if any. -/
def mapGet : LogMap → String → Option Nat
  | [], _ => none
  | (k', p) :: rest, k => if k' = k then some p else mapGet rest k

/-- Go `delete(m, k)`. -/
def mapDelete (m : LogMap) (k : String) : LogMap :=
  m.filter (fun e => decide (e.1 ≠ k))

/-- Go `m[k] = p`: the entry under `k` is replaced or added. -/
def mapSet (m : LogMap) (k : String) (p : Nat) : LogMap :=
  mapDelete m k ++ [(k, p)]

/-- Go struct `Server`: the registry `logs` together with the records its pointers
refer to.  The mutex, the listener and the exit channel carry no registry data. -/
structure Server where
  port : Nat
  historyLength : Int
  heap : List Log
  logs : LogMap
deriving DecidableEq, Repr

/-- What a handler sends back (`apiContext.Write`, `errorHandlerJSON`,
`w.WriteHeader`), what a background task returns, `pending` for a handler that has
not answered yet and `nilDereference` for a read through a pointer that is not
allocated. -/
inductive Response
  | log (l : Log)
  | collection (data : List Log)
  | error (status : Nat) (message : String)
  | status (code : Nat)
  | background (err : Option String)
  | pending
  | nilDereference
deriving DecidableEq, Repr

/-! ## Decimal rendering (`fmt.Sprintf("%v", int64)`, `strconv.Itoa`) -/

/-- Go `strconv.Itoa` / `%v` of an integer: decimal digits, `-` before a negative. -/
def Itoa : Int → String
  | Int.ofNat n => Nat.repr n
  | Int.negSucc n => "-" ++ Nat.repr (n + 1)

/-! ## The file-name pattern `(rancher-logs-(.*)).zip` -/

/-- The literal `rancher-logs-` of the pattern. -/
def rancherLogsLiteral : List Char := "rancher-logs-".data

/-- The literal `zip` of the pattern. -/
def zipLiteral : List Char := "zip".data

/-- A literal at the head of the input: the rest of the input after it. -/
def matchLiteral : List Char → List Char → Option (List Char)
  | [], s => some s
  | _ :: _, [] => none
  | c :: cs, d :: ds => if c = d then matchLiteral cs ds else none

/-- The tail `.zip` of the pattern at the head of the input: `.` is any one
character other than a newline, then the literal `zip`.  Returns the matched text. -/
def matchSuffix : List Char → Option (List Char)
  | [] => none
  | c :: rest =>
    if c = '\n' then none
    else match matchLiteral zipLiteral rest with
      | some _ => some (c :: zipLiteral)
      | none => none

/-- Greedy `.*` followed by the tail `.zip`, by backtracking: `.*` first tries to
take one more character (never a newline) and only then to stop.  Returns the text
of group 2 and the text matched by the tail. -/
def matchStarThen : List Char → Option (List Char × List Char)
  | [] => none
  | c :: cs =>
    if c = '\n' then none
    else match matchStarThen cs with
      | some (g, t) => some (c :: g, t)
      | none => (matchSuffix (c :: cs)).map (fun t => ([], t))

/-- The whole pattern at the head of the input: the submatches
`[match, group 1, group 2]`. -/
def matchHere (s : List Char) : Option (List String) :=
  match matchLiteral rancherLogsLiteral s with
  | none => none
  | some r =>
    match matchStarThen r with
    | none => none
    | some (g, t) =>
      some [String.mk (rancherLogsLiteral ++ g ++ t), String.mk (rancherLogsLiteral ++ g), String.mk g]

/-- Leftmost match of the pattern anywhere in the input, `[]` when there is none. -/
def findFrom : List Char → List String
  | [] => []
  | c :: cs =>
    match matchHere (c :: cs) with
    | some m => m
    | none => findFrom cs

/-- Go `re.FindStringSubmatch(name)` for `re = (rancher-logs-(.*)).zip`. -/
def FindStringSubmatch (name : String) : List String :=
  findFrom name.data

/-! ## Startup -/

/-- The record `getLogsOnStart` builds for the submatches `fileName`, `logFileID`. -/
def startLog (fileName logFileID : String) : Log :=
  { Id := logFileID
    ResourceType := "log"
    FileName := fileName
    DownloadURL := "http://" ++ fileName ++ ".zip"
    State := "created"
    Self := logFileID }

/-- One turn of the loop over the directory entries in `getLogsOnStart`. -/
def getLogsOnStartStep (acc : List Log × LogMap) (name : String) : List Log × LogMap :=
  match FindStringSubmatch name with
  | [_, fileName, logFileID] =>
    (acc.1 ++ [startLog fileName logFileID], mapSet acc.2 logFileID acc.1.length)
  | _ => acc

/-- Go `getLogsOnStart`; `readDir` is the result of `ioutil.ReadDir("/logs")`,
the names of the entries or an error. -/
def getLogsOnStart (readDir : Except String (List String)) : List Log × LogMap :=
  match readDir with
  | .error _ => ([], [])
  | .ok files => files.foldl getLogsOnStartStep ([], [])

/-- Go `NewServer`. -/
def NewServer (readDir : Except String (List String)) : Server :=
  { port := 8080
    historyLength := -1
    heap := (getLogsOnStart readDir).1
    logs := (getLogsOnStart readDir).2 }

/-! ## Handlers -/

/-- The download URL both read handlers compute: `fmt.Sprintf("%v/%v.zip", ...)`. -/
def downloadURL (context fileName : String) : String :=
  context ++ "/" ++ fileName ++ ".zip"

/-- Go `Server.ListLogs`: under the lock every record is copied (`log := *l`), the
copy gets its `DownloadURL` and is appended to the response. -/
def ListLogs (s : Server) (context : String) : List Log :=
  s.logs.filterMap (fun e =>
    (s.heap[e.2]?).map (fun l => { l with DownloadURL := downloadURL context l.FileName }))

/-- Go `Server.DeleteLog`; `vars` is the route variable `logId`.  The lookup and the
`delete` happen under the lock.  The goroutine `deleteLogFile` started on success
removes a file and does not touch the server. -/
def DeleteLog (s : Server) (vars : Option String) : Server × Response :=
  match vars with
  | none => (s, .error 400 "Missing paramater log id")
  | some logID =>
    match mapGet s.logs logID with
    | none => ({ s with logs := mapDelete s.logs logID }, .error 404 "log not found")
    | some _ => ({ s with logs := mapDelete s.logs logID }, .status 200)

/-- Go `Server.LoadLogDetails`: `resp` is the pointer stored in the map, and
`resp.DownloadURL = ...` writes through it.  A stored pointer is never nil, so the
branch `nilDereference` is not taken in a well-formed registry. -/
def LoadLogDetails (s : Server) (vars : Option String) (context : String) :
    Server × Response :=
  match vars with
  | none => (s, .error 400 "Missing paramater log id")
  | some logID =>
    match mapGet s.logs logID with
    | none => (s, .error 404 "log not found")
    | some p =>
      match s.heap[p]? with
      | none => (s, .nilDereference)
      | some l =>
        ({ s with heap := s.heap.set p { l with DownloadURL := downloadURL context l.FileName } },
          .log { l with DownloadURL := downloadURL context l.FileName })

/-- Go `Server.appendLog` for the record at address `p`. -/
def appendLog (s : Server) (p : Nat) : Server :=
  match s.heap[p]? with
  | none => s
  | some l => { s with logs := mapSet s.logs l.Id p }

/-- Go `NewLog`; `now` is the reading `time.Now().UnixNano()`. -/
def NewLog (now : Int) : Log :=
  { Id := Itoa now
    ResourceType := "log"
    FileName := "rancher-logs-" ++ Itoa now
    State := "creating"
    DownloadURL := ""
    Self := Itoa now }

/-- The part of `GenerateLog` and of `homePageHandler` up to `go s.collectLogs(log)`:
`NewLog` allocates the record, `appendLog` registers it.  Returns its address. -/
def createLog (s : Server) (now : Int) : Server × Nat :=
  (appendLog { s with heap := s.heap ++ [NewLog now] } s.heap.length, s.heap.length)

/-- The last statement of `GenerateLog`, `apiContext.Write(log)`: the response is
serialised from the record the pointer `log` refers to at that moment. -/
def writeLog (s : Server) (p : Nat) : Response :=
  match s.heap[p]? with
  | none => .nilDereference
  | some l => .log l

/-- Go `Server.collectLogs` for the record at address `p`; `run` is the external
command, from its arguments to the error of `cmd.Run()`. -/
def collectLogs (s : Server) (p : Nat) (run : List String → Option String) :
    Server × Option String :=
  match s.heap[p]? with
  | none => (s, some "nil dereference")
  | some log =>
    match run ["logs-collector.sh", "/logs", log.FileName, Itoa s.historyLength] with
    | some err => (s, some err)
    | none => ({ s with heap := s.heap.set p { log with State := "created" } }, none)

/-- Go `Server.GenerateLog` when nothing else runs before its response is written. -/
def GenerateLog (s : Server) (now : Int) : Server × Response :=
  ((createLog s now).1, writeLog (createLog s now).1 (createLog s now).2)

/-! ## Schedules -/

/-- One atomic section of a request handler or of a background collector:
* `create now`: `GenerateLog` or `homePageHandler` up to `go s.collectLogs(log)`, with
  clock reading `now`;
* `write p`: the response write of `GenerateLog` for the record it allocated at `p`;
* `collect p result`: `collectLogs` for the record at `p`, at the moment `cmd.Run()`
  returned `result` (`none` is exit status zero);
* `get`, `list`, `delete`: `LoadLogDetails`, `ListLogs`, `DeleteLog`. -/
inductive Event
  | create (now : Int)
  | write (p : Nat)
  | collect (p : Nat) (result : Option String)
  | get (vars : Option String) (context : String)
  | list (context : String)
  | delete (vars : Option String)
deriving DecidableEq, Repr

/-- The effect of one event on the server and what it answers. -/
def step (s : Server) : Event → Server × Response
  | .create now => ((createLog s now).1, .pending)
  | .write p => (s, writeLog s p)
  | .collect p result =>
    ((collectLogs s p (fun _ => result)).1, .background (collectLogs s p (fun _ => result)).2)
  | .get vars context => LoadLogDetails s vars context
  | .list context => (s, .collection (ListLogs s context))
  | .delete vars => DeleteLog s vars

/-- The server after a schedule of events. -/
def runEvents (s : Server) (evs : List Event) : Server :=
  evs.foldl (fun t e => (step t e).1) s

/-- The `State` a client reads in a response carrying one record. -/
def observedState : Response → Option String
  | .log l => some l.State
  | _ => none

/-- The schedule of a job that is created at clock reading `now` and whose id is
deleted later: the creation, the events `evs1`, the deletion, the events `evs2`. -/
def createThenDelete (now : Int) (evs1 evs2 : List Event) : List Event :=
  .create now :: evs1 ++ .delete (some (Itoa now)) :: evs2

/-- Registry invariant: keys are distinct and every entry points at an allocated
record whose `Id` is the key. -/
def WF (s : Server) : Prop :=
  (s.logs.map Prod.fst).Nodup ∧ ∀ e ∈ s.logs, (s.heap[e.2]?).map Log.Id = some e.1

instance (s : Server) : Decidable (WF s) := by
  unfold WF; infer_instance

/-- The empty server, as `NewServer` builds it over an empty directory. -/
def emptyServer : Server := NewServer (.ok [])

/-! ## Predicates and helpers of the proofs -/

/-- The records of `h` are still there in `h1`, each with the same `Id` and
`FileName`, and with the same `State` unless it became `created`. -/
def HeapExt (h h1 : List Log) : Prop :=
  ∀ (q : Nat) (l : Log), h[q]? = some l →
    ∃ l1 : Log, h1[q]? = some l1 ∧ l1.Id = l.Id ∧ l1.FileName = l.FileName ∧
      (l1.State = l.State ∨ l1.State = "created")

/-- The record registered under `id`, if there is one, has state `created`. -/
def DoneAt (s : Server) (id : String) : Prop :=
  ∀ p : Nat, mapGet s.logs id = some p → ∃ l : Log, s.heap[p]? = some l ∧ l.State = "created"

/-- The value of a decimal digit character. -/
def digitValue (c : Char) : Nat := c.toNat - 48

/-- Reads a decimal numeral back. -/
def parseDecimal (cs : List Char) : Nat := Nat.ofDigits 10 ((cs.map digitValue).reverse)

/-! ## Map lemmas -/

theorem mapGet_eq_none_iff (m : LogMap) (k : String) :
    mapGet m k = none ↔ ∀ e ∈ m, e.1 ≠ k := by
  induction m with
  | nil => simp [mapGet]
  | cons a rest ih =>
    obtain ⟨k1, p1⟩ := a
    by_cases h : k1 = k
    · simp [mapGet, h]
    · simp [mapGet, h, ih]

theorem mapGet_mem (m : LogMap) (k : String) (p : Nat) (h : mapGet m k = some p) :
    (k, p) ∈ m := by
  induction m with
  | nil => simp [mapGet] at h
  | cons a rest ih =>
    obtain ⟨k1, p1⟩ := a
    by_cases hk : k1 = k
    · simp [mapGet, hk] at h
      simp [hk, h]
    · simp [mapGet, hk] at h
      exact List.mem_cons_of_mem _ (ih h)

theorem mapGet_of_mem (m : LogMap) (k : String) (p : Nat)
    (hnd : (m.map Prod.fst).Nodup) (h : (k, p) ∈ m) : mapGet m k = some p := by
  induction m with
  | nil => simp at h
  | cons a rest ih =>
    obtain ⟨k1, p1⟩ := a
    simp only [List.map_cons, List.nodup_cons] at hnd
    rcases List.mem_cons.mp h with h1 | h1
    · cases h1
      simp [mapGet]
    · have hne : k1 ≠ k := by
        intro hk
        apply hnd.1
        rw [hk]
        exact List.mem_map.mpr ⟨(k, p), h1, rfl⟩
      simp [mapGet, hne, ih hnd.2 h1]

theorem mapGet_append (m1 m2 : LogMap) (k : String) :
    mapGet (m1 ++ m2) k = (mapGet m1 k).orElse (fun _ => mapGet m2 k) := by
  induction m1 with
  | nil => simp [mapGet]
  | cons a rest ih =>
    obtain ⟨k1, p1⟩ := a
    by_cases hk : k1 = k
    · simp [mapGet, hk]
    · simp [mapGet, hk, ih]

theorem mapGet_mapDelete_self (m : LogMap) (k : String) : mapGet (mapDelete m k) k = none := by
  rw [mapGet_eq_none_iff]
  intro e he
  simpa [mapDelete] using (List.mem_filter.mp he).2

theorem mapGet_mapDelete_ne (m : LogMap) (k k1 : String) (h : k1 ≠ k) :
    mapGet (mapDelete m k) k1 = mapGet m k1 := by
  induction m with
  | nil => rfl
  | cons a rest ih =>
    obtain ⟨k2, p2⟩ := a
    have ih2 : mapGet (List.filter (fun e => decide (e.1 ≠ k)) rest) k1 = mapGet rest k1 := ih
    show mapGet (List.filter (fun e => decide (e.1 ≠ k)) ((k2, p2) :: rest)) k1 = _
    by_cases h2 : k2 = k
    · have h3 : k2 ≠ k1 := by rw [h2]; exact fun h3 => h h3.symm
      rw [List.filter_cons_of_neg (by simpa using h2), ih2]
      simp [mapGet, h3]
    · rw [List.filter_cons_of_pos (by simpa using h2)]
      by_cases h3 : k2 = k1
      · simp [mapGet, h3]
      · simpa [mapGet, h3] using ih2

theorem mapGet_mapSet_self (m : LogMap) (k : String) (p : Nat) :
    mapGet (mapSet m k p) k = some p := by
  simp [mapSet, mapGet_append, mapGet_mapDelete_self, mapGet]

theorem mapGet_mapSet_ne (m : LogMap) (k k1 : String) (p : Nat) (h : k1 ≠ k) :
    mapGet (mapSet m k p) k1 = mapGet m k1 := by
  have h2 : k ≠ k1 := fun h3 => h h3.symm
  simp [mapSet, mapGet_append, mapGet_mapDelete_ne _ _ _ h, mapGet, h2]

theorem mapDelete_keys_nodup (m : LogMap) (k : String) (h : (m.map Prod.fst).Nodup) :
    ((mapDelete m k).map Prod.fst).Nodup := by
  unfold mapDelete
  exact (List.filter_sublist m).map Prod.fst |>.nodup h

theorem mapSet_keys_nodup (m : LogMap) (k : String) (p : Nat) (h : (m.map Prod.fst).Nodup) :
    ((mapSet m k p).map Prod.fst).Nodup := by
  unfold mapSet
  rw [List.map_append, List.nodup_append]
  refine ⟨mapDelete_keys_nodup m k h, by simp, ?_⟩
  intro a ha hb
  simp only [List.map_cons, List.map_nil, List.mem_singleton] at hb
  obtain ⟨e, he, rfl⟩ := List.mem_map.mp ha
  have := (List.mem_filter.mp he).2
  simp at this
  exact this hb

theorem mem_mapDelete (m : LogMap) (k : String) (e : String × Nat) :
    e ∈ mapDelete m k ↔ e ∈ m ∧ e.1 ≠ k := by
  simp [mapDelete, List.mem_filter]

theorem mem_mapSet (m : LogMap) (k : String) (p : Nat) (e : String × Nat) :
    e ∈ mapSet m k p ↔ (e ∈ m ∧ e.1 ≠ k) ∨ e = (k, p) := by
  simp [mapSet, mem_mapDelete]

/-! ## How one event changes the records and the map -/

theorem HeapExt.refl (h : List Log) : HeapExt h h :=
  fun _ l hq => ⟨l, hq, rfl, rfl, Or.inl rfl⟩

theorem HeapExt.trans {h h1 h2 : List Log} (a : HeapExt h h1) (b : HeapExt h1 h2) :
    HeapExt h h2 := by
  intro q l hq
  obtain ⟨l1, h1q, hid1, hfn1, hst1⟩ := a q l hq
  obtain ⟨l2, h2q, hid2, hfn2, hst2⟩ := b q l1 h1q
  refine ⟨l2, h2q, hid2.trans hid1, hfn2.trans hfn1, ?_⟩
  rcases hst2 with e | e
  · rcases hst1 with e1 | e1
    · exact Or.inl (e.trans e1)
    · exact Or.inr (e.trans e1)
  · exact Or.inr e

theorem HeapExt.append (h : List Log) (l : Log) : HeapExt h (h ++ [l]) := by
  intro q l0 hq
  have hlt : q < h.length := (List.getElem?_eq_some.mp hq).1
  exact ⟨l0, by rw [List.getElem?_append_left hlt]; exact hq, rfl, rfl, Or.inl rfl⟩

theorem HeapExt.set (h : List Log) (p : Nat) (l l1 : Log) (hp : h[p]? = some l)
    (hid : l1.Id = l.Id) (hfn : l1.FileName = l.FileName)
    (hst : l1.State = l.State ∨ l1.State = "created") : HeapExt h (h.set p l1) := by
  intro q l0 hq
  by_cases hpq : p = q
  · subst hpq
    have hlt : p < h.length := (List.getElem?_eq_some.mp hq).1
    rw [hp] at hq
    cases hq
    exact ⟨l1, List.getElem?_set_self hlt, hid, hfn, hst⟩
  · exact ⟨l0, by rw [List.getElem?_set_ne hpq]; exact hq, rfl, rfl, Or.inl rfl⟩

theorem createLog_fst (s : Server) (now : Int) :
    (createLog s now).1 =
      { s with heap := s.heap ++ [NewLog now]
               logs := mapSet s.logs (Itoa now) s.heap.length } := by
  simp [createLog, appendLog, NewLog]

theorem createLog_snd (s : Server) (now : Int) : (createLog s now).2 = s.heap.length := rfl

theorem createLog_heap_at (s : Server) (now : Int) :
    (createLog s now).1.heap[(createLog s now).2]? = some (NewLog now) := by
  rw [createLog_fst, createLog_snd]
  exact List.getElem?_concat_length _ _

theorem LoadLogDetails_missing (s : Server) (logID context : String)
    (hg : mapGet s.logs logID = none) :
    LoadLogDetails s (some logID) context = (s, .error 404 "log not found") := by
  simp [LoadLogDetails, hg]

theorem LoadLogDetails_dangling (s : Server) (logID context : String) (p : Nat)
    (hg : mapGet s.logs logID = some p) (hp : s.heap[p]? = none) :
    LoadLogDetails s (some logID) context = (s, .nilDereference) := by
  simp only [LoadLogDetails, hg, hp]

theorem LoadLogDetails_found (s : Server) (logID context : String) (p : Nat) (l : Log)
    (hg : mapGet s.logs logID = some p) (hp : s.heap[p]? = some l) :
    LoadLogDetails s (some logID) context =
      ({ s with heap := s.heap.set p { l with DownloadURL := downloadURL context l.FileName } },
        .log { l with DownloadURL := downloadURL context l.FileName }) := by
  simp only [LoadLogDetails, hg, hp]

theorem DeleteLog_missing (s : Server) (logID : String) (hg : mapGet s.logs logID = none) :
    DeleteLog s (some logID) =
      ({ s with logs := mapDelete s.logs logID }, .error 404 "log not found") := by
  simp only [DeleteLog, hg]

theorem DeleteLog_found (s : Server) (logID : String) (p : Nat)
    (hg : mapGet s.logs logID = some p) :
    DeleteLog s (some logID) = ({ s with logs := mapDelete s.logs logID }, .status 200) := by
  simp only [DeleteLog, hg]

theorem DeleteLog_fst (s : Server) (logID : String) :
    (DeleteLog s (some logID)).1 = { s with logs := mapDelete s.logs logID } := by
  cases hg : mapGet s.logs logID with
  | none => rw [DeleteLog_missing s logID hg]
  | some p => rw [DeleteLog_found s logID p hg]

theorem collectLogs_dangling (s : Server) (p : Nat) (run : List String → Option String)
    (hp : s.heap[p]? = none) : collectLogs s p run = (s, some "nil dereference") := by
  simp only [collectLogs, hp]

theorem collectLogs_failure (s : Server) (p : Nat) (run : List String → Option String)
    (l : Log) (err : String) (hp : s.heap[p]? = some l)
    (hr : run ["logs-collector.sh", "/logs", l.FileName, Itoa s.historyLength] = some err) :
    collectLogs s p run = (s, some err) := by
  simp only [collectLogs, hp, hr]

theorem collectLogs_success (s : Server) (p : Nat) (run : List String → Option String)
    (l : Log) (hp : s.heap[p]? = some l)
    (hr : run ["logs-collector.sh", "/logs", l.FileName, Itoa s.historyLength] = none) :
    collectLogs s p run =
      ({ s with heap := s.heap.set p { l with State := "created" } }, none) := by
  simp only [collectLogs, hp, hr]

theorem step_heapExt (s : Server) (e : Event) : HeapExt s.heap (step s e).1.heap := by
  cases e with
  | create now =>
    show HeapExt s.heap (createLog s now).1.heap
    rw [createLog_fst]
    exact HeapExt.append _ _
  | write p => exact HeapExt.refl _
  | collect p result =>
    show HeapExt s.heap (collectLogs s p (fun _ => result)).1.heap
    cases hp : s.heap[p]? with
    | none =>
      rw [collectLogs_dangling s p _ hp]
      exact HeapExt.refl _
    | some l =>
      cases result with
      | some err =>
        rw [collectLogs_failure s p _ l err hp rfl]
        exact HeapExt.refl _
      | none =>
        rw [collectLogs_success s p _ l hp rfl]
        exact HeapExt.set _ _ _ _ hp rfl rfl (Or.inr rfl)
  | get vars context =>
    show HeapExt s.heap (LoadLogDetails s vars context).1.heap
    cases vars with
    | none => exact HeapExt.refl _
    | some logID =>
      cases hg : mapGet s.logs logID with
      | none =>
        rw [LoadLogDetails_missing s logID context hg]
        exact HeapExt.refl _
      | some p =>
        cases hp : s.heap[p]? with
        | none =>
          rw [LoadLogDetails_dangling s logID context p hg hp]
          exact HeapExt.refl _
        | some l =>
          rw [LoadLogDetails_found s logID context p l hg hp]
          exact HeapExt.set _ _ _ _ hp rfl rfl (Or.inl rfl)
  | list context => exact HeapExt.refl _
  | delete vars =>
    show HeapExt s.heap (DeleteLog s vars).1.heap
    cases vars with
    | none => exact HeapExt.refl _
    | some logID =>
      rw [DeleteLog_fst]
      exact HeapExt.refl _

theorem runEvents_cons (s : Server) (e : Event) (evs : List Event) :
    runEvents s (e :: evs) = runEvents (step s e).1 evs := rfl

theorem runEvents_append (s : Server) (evs evs1 : List Event) :
    runEvents s (evs ++ evs1) = runEvents (runEvents s evs) evs1 := by
  simp [runEvents, List.foldl_append]

theorem runEvents_heapExt (s : Server) (evs : List Event) :
    HeapExt s.heap (runEvents s evs).heap := by
  induction evs generalizing s with
  | nil => exact HeapExt.refl _
  | cons e evs ih =>
    rw [runEvents_cons]
    exact (step_heapExt s e).trans (ih _)

/-- The map after one event: a `create` sets the key of its id to the new address, a
`delete` removes its key, and nothing else changes the map. -/
theorem step_logs (s : Server) (e : Event) :
    (step s e).1.logs =
      match e with
      | .create now => mapSet s.logs (Itoa now) s.heap.length
      | .delete (some logID) => mapDelete s.logs logID
      | _ => s.logs := by
  cases e with
  | create now =>
    show (createLog s now).1.logs = _
    rw [createLog_fst]
  | write p => rfl
  | collect p result =>
    show (collectLogs s p (fun _ => result)).1.logs = _
    cases hp : s.heap[p]? with
    | none => rw [collectLogs_dangling s p _ hp]
    | some l =>
      cases result with
      | some err => rw [collectLogs_failure s p _ l err hp rfl]
      | none => rw [collectLogs_success s p _ l hp rfl]
  | get vars context =>
    show (LoadLogDetails s vars context).1.logs = _
    cases vars with
    | none => rfl
    | some logID =>
      cases hg : mapGet s.logs logID with
      | none => rw [LoadLogDetails_missing s logID context hg]
      | some p =>
        cases hp : s.heap[p]? with
        | none => rw [LoadLogDetails_dangling s logID context p hg hp]
        | some l => rw [LoadLogDetails_found s logID context p l hg hp]
  | list context => rfl
  | delete vars =>
    show (DeleteLog s vars).1.logs = _
    cases vars with
    | none => rfl
    | some logID => rw [DeleteLog_fst]

theorem step_WF (s : Server) (e : Event) (h : WF s) : WF (step s e).1 := by
  have hext := step_heapExt s e
  have hkeep : ∀ x ∈ s.logs, ((step s e).1.heap[x.2]?).map Log.Id = some x.1 := by
    intro x hx
    have h1 := h.2 x hx
    cases hq : s.heap[x.2]? with
    | none => simp [hq] at h1
    | some l =>
      obtain ⟨l1, hl1, hid, _, _⟩ := hext x.2 l hq
      simp [hq] at h1
      simp [hl1, hid, h1]
  have hlogs := step_logs s e
  refine ⟨?_, ?_⟩
  · rw [hlogs]
    cases e with
    | create now => exact mapSet_keys_nodup _ _ _ h.1
    | delete vars =>
      cases vars with
      | none => exact h.1
      | some logID => exact mapDelete_keys_nodup _ _ h.1
    | write p => exact h.1
    | collect p result => exact h.1
    | get vars context => exact h.1
    | list context => exact h.1
  · intro x hx
    rw [hlogs] at hx
    cases e with
    | create now =>
      rcases (mem_mapSet _ _ _ _).mp hx with h1 | h1
      · exact hkeep x h1.1
      · subst h1
        show ((createLog s now).1.heap[(createLog s now).2]?).map Log.Id = _
        rw [createLog_heap_at]
        rfl
    | delete vars =>
      cases vars with
      | none => exact hkeep x hx
      | some logID => exact hkeep x ((mem_mapDelete _ _ _).mp hx).1
    | write p => exact hkeep x hx
    | collect p result => exact hkeep x hx
    | get vars context => exact hkeep x hx
    | list context => exact hkeep x hx

theorem runEvents_WF (s : Server) (evs : List Event) (h : WF s) : WF (runEvents s evs) := by
  induction evs generalizing s with
  | nil => exact h
  | cons e evs ih =>
    rw [runEvents_cons]
    exact ih _ (step_WF s e h)

/-- An event that is neither a `create` yielding `id` nor a `delete` of `id` leaves
the entry under `id` as it is. -/
theorem step_mapGet (s : Server) (e : Event) (id : String)
    (hc : ∀ now, e = .create now → Itoa now ≠ id) (hd : e ≠ .delete (some id)) :
    mapGet (step s e).1.logs id = mapGet s.logs id := by
  rw [step_logs]
  cases e with
  | create now => exact mapGet_mapSet_ne _ _ _ _ (fun h => hc now rfl h.symm)
  | delete vars =>
    cases vars with
    | none => rfl
    | some logID =>
      refine mapGet_mapDelete_ne _ _ _ ?_
      intro h
      exact hd (by rw [h])
  | write p => rfl
  | collect p result => rfl
  | get vars context => rfl
  | list context => rfl

theorem step_mapGet_none (s : Server) (e : Event) (id : String)
    (hc : ∀ now, e = .create now → Itoa now ≠ id) (h : mapGet s.logs id = none) :
    mapGet (step s e).1.logs id = none := by
  by_cases hd : e = .delete (some id)
  · subst hd
    rw [step_logs]
    exact mapGet_mapDelete_self _ _
  · rw [step_mapGet s e id hc hd, h]

theorem runEvents_mapGet_none (s : Server) (evs : List Event) (id : String)
    (hc : ∀ now, Event.create now ∈ evs → Itoa now ≠ id) (h : mapGet s.logs id = none) :
    mapGet (runEvents s evs).logs id = none := by
  induction evs generalizing s with
  | nil => exact h
  | cons e evs ih =>
    rw [runEvents_cons]
    refine ih _ (fun now hm => hc now (List.mem_cons_of_mem _ hm)) ?_
    refine step_mapGet_none s e id ?_ h
    intro now he
    exact hc now (by rw [he]; exact List.mem_cons_self _ _)

/-- Every record of a listing is the copy of a registered record, found under its
own `Id`. -/
theorem mem_ListLogs (s : Server) (context : String) (l : Log) (hwf : WF s)
    (h : l ∈ ListLogs s context) :
    ∃ (p : Nat) (l0 : Log), mapGet s.logs l.Id = some p ∧ s.heap[p]? = some l0 ∧
      l = { l0 with DownloadURL := downloadURL context l0.FileName } := by
  unfold ListLogs at h
  obtain ⟨e, he, hl⟩ := List.mem_filterMap.mp h
  cases hq : s.heap[e.2]? with
  | none => simp [hq] at hl
  | some l0 =>
    simp only [hq, Option.map_some', Option.some.injEq] at hl
    have hid := hwf.2 e he
    simp only [hq, Option.map_some', Option.some.injEq] at hid
    refine ⟨e.2, l0, ?_, hq, hl.symm⟩
    rw [← hl]
    show mapGet s.logs l0.Id = some e.2
    rw [hid]
    exact mapGet_of_mem _ _ _ hwf.1 he

/-! ## Deletion -/

/-- C1, as the code has it: in a well-formed registry holding `id`, `DeleteLog(id)`
answers 200, and after it, whatever reads, deletions and collector steps follow, and
as long as no later creation yields that same id, `LoadLogDetails(id)` answers 404,
no record of a `ListLogs` result has that id, and `DeleteLog(id)` answers 404. -/
theorem DeleteLog_then_not_found (s : Server) (id context : String) (evs : List Event)
    (hwf : WF s) (hin : (mapGet s.logs id).isSome = true)
    (hc : ∀ now, Event.create now ∈ evs → Itoa now ≠ id) :
    (DeleteLog s (some id)).2 = .status 200 ∧
    (LoadLogDetails (runEvents (DeleteLog s (some id)).1 evs) (some id) context).2 =
      .error 404 "log not found" ∧
    (∀ l ∈ ListLogs (runEvents (DeleteLog s (some id)).1 evs) context, l.Id ≠ id) ∧
    (DeleteLog (runEvents (DeleteLog s (some id)).1 evs) (some id)).2 =
      .error 404 "log not found" := by
  obtain ⟨p, hp⟩ := Option.isSome_iff_exists.mp hin
  have hwf1 : WF (DeleteLog s (some id)).1 := step_WF s (.delete (some id)) hwf
  have hnone : mapGet (runEvents (DeleteLog s (some id)).1 evs).logs id = none := by
    refine runEvents_mapGet_none _ evs id hc ?_
    rw [DeleteLog_fst]
    exact mapGet_mapDelete_self _ _
  refine ⟨by rw [DeleteLog_found s id p hp], ?_, ?_, ?_⟩
  · rw [LoadLogDetails_missing _ id context hnone]
  · intro l hl hid
    obtain ⟨q, l0, hq, _, _⟩ := mem_ListLogs _ context l (runEvents_WF _ evs hwf1) hl
    rw [hid, hnone] at hq
    cases hq
  · rw [DeleteLog_missing _ id hnone]

theorem DeleteLog_then_not_found_witness :
    (DeleteLog (NewServer (.ok ["rancher-logs-111.zip"])) (some "111")).2 = .status 200 ∧
    (LoadLogDetails (runEvents (DeleteLog (NewServer (.ok ["rancher-logs-111.zip"]))
        (some "111")).1 [.list "http://h/v1/logs", .create 5, .collect 1 none])
        (some "111") "http://h/v1/logs/111").2 = .error 404 "log not found" ∧
    (∀ l ∈ ListLogs (runEvents (DeleteLog (NewServer (.ok ["rancher-logs-111.zip"]))
        (some "111")).1 [.list "http://h/v1/logs", .create 5, .collect 1 none])
        "http://h/v1/logs/111", l.Id ≠ "111") ∧
    (DeleteLog (runEvents (DeleteLog (NewServer (.ok ["rancher-logs-111.zip"]))
        (some "111")).1 [.list "http://h/v1/logs", .create 5, .collect 1 none])
        (some "111")).2 = .error 404 "log not found" :=
  DeleteLog_then_not_found (NewServer (.ok ["rancher-logs-111.zip"])) "111"
    "http://h/v1/logs/111" [.list "http://h/v1/logs", .create 5, .collect 1 none]
    (by decide) (by decide)
    (by
      intro now h
      simp only [List.mem_cons, Event.create.injEq, List.mem_singleton, reduceCtorEq,
        false_or, or_false, List.not_mem_nil] at h
      subst h
      decide)

/-- C1 fails as stated: a job is created and its id deleted (answer 200); a later
creation reading the same clock value registers that id again, and then
`LoadLogDetails` of the id answers a record, the `ListLogs` result holds a record
with that id, and a second `DeleteLog` of the id answers 200. -/
theorem deleted_id_registered_again :
    (DeleteLog (runEvents emptyServer [.create 1700000000000000000])
      (some "1700000000000000000")).2 = .status 200 ∧
    observedState (LoadLogDetails (runEvents (DeleteLog (runEvents emptyServer
        [.create 1700000000000000000]) (some "1700000000000000000")).1
        [.create 1700000000000000000])
      (some "1700000000000000000") "http://h/v1/logs/1700000000000000000").2 =
      some "creating" ∧
    (ListLogs (runEvents (DeleteLog (runEvents emptyServer
        [.create 1700000000000000000]) (some "1700000000000000000")).1
        [.create 1700000000000000000]) "http://h/v1/logs").map Log.Id =
      ["1700000000000000000"] ∧
    (DeleteLog (runEvents (DeleteLog (runEvents emptyServer
        [.create 1700000000000000000]) (some "1700000000000000000")).1
        [.create 1700000000000000000]) (some "1700000000000000000")).2 = .status 200 := by
  decide

/-! ## Identifiers -/

theorem toDigitsCore_eq_digits (fuel : Nat) : ∀ (n : Nat) (ds : List Char), 0 < n → n < fuel →
    Nat.toDigitsCore 10 fuel n ds = ((Nat.digits 10 n).reverse.map Nat.digitChar) ++ ds := by
  induction fuel with
  | zero => intro n ds _ h; omega
  | succ fuel ih =>
    intro n ds hpos hlt
    rw [Nat.toDigitsCore, Nat.digits_def' (by norm_num) hpos]
    by_cases h0 : n / 10 = 0
    · simp [h0]
    · simp only [h0, if_false]
      rw [ih (n / 10) _ (Nat.pos_of_ne_zero h0) (by omega)]
      simp

theorem toDigits_eq_digits (n : Nat) (h : 0 < n) :
    Nat.toDigits 10 n = (Nat.digits 10 n).reverse.map Nat.digitChar := by
  rw [Nat.toDigits, toDigitsCore_eq_digits (n + 1) n [] h (Nat.lt_succ_self n)]
  simp

theorem digitValue_digitChar : ∀ d, d < 10 → digitValue (Nat.digitChar d) = d := by decide

theorem digitChar_ne_minus : ∀ d, d < 10 → Nat.digitChar d ≠ '-' := by decide

theorem parseDecimal_toDigits (n : Nat) : parseDecimal (Nat.toDigits 10 n) = n := by
  rcases Nat.eq_zero_or_pos n with h | h
  · subst h
    decide
  · rw [toDigits_eq_digits n h, parseDecimal]
    have hmap : ((Nat.digits 10 n).reverse.map Nat.digitChar).map digitValue =
        (Nat.digits 10 n).reverse := by
      rw [List.map_map]
      conv_rhs => rw [← List.map_id (Nat.digits 10 n).reverse]
      apply List.map_congr_left
      intro d hd
      exact digitValue_digitChar d (Nat.digits_lt_base (by norm_num) (List.mem_reverse.mp hd))
    rw [hmap, List.reverse_reverse, Nat.ofDigits_digits]

theorem toDigits_ne_minus (n : Nat) : ∀ c ∈ Nat.toDigits 10 n, c ≠ '-' := by
  rcases Nat.eq_zero_or_pos n with h | h
  · subst h
    decide
  · rw [toDigits_eq_digits n h]
    intro c hc
    obtain ⟨d, hd, rfl⟩ := List.mem_map.mp hc
    exact digitChar_ne_minus d (Nat.digits_lt_base (by norm_num) (List.mem_reverse.mp hd))

theorem Itoa_data (i : Int) :
    (Itoa i).data =
      match i with
      | Int.ofNat n => Nat.toDigits 10 n
      | Int.negSucc n => '-' :: Nat.toDigits 10 (n + 1) := by
  cases i with
  | ofNat n => rfl
  | negSucc n => rfl

/-- The decimal rendering determines the integer. -/
theorem Itoa_injective (a b : Int) (h : Itoa a = Itoa b) : a = b := by
  have hd : (Itoa a).data = (Itoa b).data := by rw [h]
  rw [Itoa_data, Itoa_data] at hd
  cases a with
  | ofNat m =>
    cases b with
    | ofNat n =>
      have := congrArg parseDecimal hd
      simp only [parseDecimal_toDigits] at this
      rw [this]
    | negSucc n =>
      exfalso
      simp only at hd
      have h1 := toDigits_ne_minus m '-'
      rw [hd] at h1
      exact h1 (List.mem_cons_self _ _) rfl
  | negSucc m =>
    cases b with
    | ofNat n =>
      exfalso
      simp only at hd
      have h1 := toDigits_ne_minus n '-'
      rw [← hd] at h1
      exact h1 (List.mem_cons_self _ _) rfl
    | negSucc n =>
      simp only [List.cons.injEq, true_and] at hd
      have := congrArg parseDecimal hd
      simp only [parseDecimal_toDigits] at this
      have h2 : m = n := by omega
      rw [h2]

/-- C2, as the code has it: the id of a created record is the decimal rendering of
the clock reading, and two creations get the same id exactly when they read the same
clock value; so creations whose clock readings differ get different ids. -/
theorem NewLog_Id_eq_iff (t1 t2 : Int) :
    (NewLog t1).Id = Itoa t1 ∧ ((NewLog t1).Id = (NewLog t2).Id ↔ t1 = t2) :=
  ⟨rfl, fun he => Itoa_injective t1 t2 he, fun he => by rw [he]⟩

/-- C2 fails as stated: two creations in one process that read the same clock value
allocate two records with the same id, and the registry keeps only the second. -/
theorem create_twice_same_clock :
    (runEvents emptyServer [.create 1700000000000000000, .create 1700000000000000000]).heap.map
        Log.Id = ["1700000000000000000", "1700000000000000000"] ∧
    (runEvents emptyServer [.create 1700000000000000000, .create 1700000000000000000]).logs =
      [("1700000000000000000", 1)] := by
  decide

/-! ## State monotonicity -/

theorem runEvents_mapGet (s : Server) (evs : List Event) (id : String)
    (hc : ∀ now, Event.create now ∈ evs → Itoa now ≠ id)
    (hd : Event.delete (some id) ∉ evs) :
    mapGet (runEvents s evs).logs id = mapGet s.logs id := by
  induction evs generalizing s with
  | nil => rfl
  | cons e evs ih =>
    rw [runEvents_cons, ih _ (fun now hm => hc now (List.mem_cons_of_mem _ hm))
      (fun hm => hd (List.mem_cons_of_mem _ hm))]
    refine step_mapGet s e id ?_ ?_
    · intro now he
      exact hc now (by rw [he]; exact List.mem_cons_self _ _)
    · intro he
      exact hd (by rw [he]; exact List.mem_cons_self _ _)

theorem step_DoneAt (s : Server) (e : Event) (id : String)
    (hc : ∀ now, e = .create now → Itoa now ≠ id) (h : DoneAt s id) :
    DoneAt (step s e).1 id := by
  intro p hp
  by_cases hd : e = .delete (some id)
  · rw [step_mapGet_none s e id hc (by subst hd; rw [step_logs] at hp; rw [mapGet_mapDelete_self] at hp; cases hp)] at hp
    cases hp
  · rw [step_mapGet s e id hc hd] at hp
    obtain ⟨l, hl, hst⟩ := h p hp
    obtain ⟨l1, hl1, _, _, hst1⟩ := step_heapExt s e p l hl
    refine ⟨l1, hl1, ?_⟩
    rcases hst1 with h1 | h1
    · rw [h1, hst]
    · exact h1

theorem runEvents_DoneAt (s : Server) (evs : List Event) (id : String)
    (hc : ∀ now, Event.create now ∈ evs → Itoa now ≠ id) (h : DoneAt s id) :
    DoneAt (runEvents s evs) id := by
  induction evs generalizing s with
  | nil => exact h
  | cons e evs ih =>
    rw [runEvents_cons]
    refine ih _ (fun now hm => hc now (List.mem_cons_of_mem _ hm)) ?_
    refine step_DoneAt s e id ?_ h
    intro now he
    exact hc now (by rw [he]; exact List.mem_cons_self _ _)

theorem observedState_LoadLogDetails (s : Server) (id context st : String)
    (h : observedState (LoadLogDetails s (some id) context).2 = some st) :
    ∃ (p : Nat) (l : Log), mapGet s.logs id = some p ∧ s.heap[p]? = some l ∧ l.State = st := by
  cases hg : mapGet s.logs id with
  | none =>
    rw [LoadLogDetails_missing s id context hg] at h
    cases h
  | some p =>
    cases hp : s.heap[p]? with
    | none =>
      rw [LoadLogDetails_dangling s id context p hg hp] at h
      cases h
    | some l =>
      rw [LoadLogDetails_found s id context p l hg hp] at h
      exact ⟨p, l, rfl, hp, by simpa [observedState] using h⟩

/-- C3, as the code has it: once a record under `id` was observed with state
`created`, through `LoadLogDetails` or in a `ListLogs` result, then after any
schedule of events in which no creation yields that same id, `LoadLogDetails(id)`
does not answer state `creating` and no record with that id in a `ListLogs` result
has state `creating`. -/
theorem state_never_back_to_creating (s : Server) (id context context1 : String)
    (evs : List Event) (hwf : WF s)
    (hobs : observedState (LoadLogDetails s (some id) context).2 = some "created" ∨
      ∃ l ∈ ListLogs s context, l.Id = id ∧ l.State = "created")
    (hc : ∀ now, Event.create now ∈ evs → Itoa now ≠ id) :
    observedState (LoadLogDetails (runEvents s evs) (some id) context1).2 ≠ some "creating" ∧
    ∀ l ∈ ListLogs (runEvents s evs) context1, l.Id = id → l.State ≠ "creating" := by
  have hdone : DoneAt s id := by
    intro p hp
    rcases hobs with h | ⟨l, hl, hid, hst⟩
    · obtain ⟨q, l, hq, hl, hst⟩ := observedState_LoadLogDetails s id context _ h
      rw [hp] at hq
      cases hq
      exact ⟨l, hl, hst⟩
    · obtain ⟨q, l0, hq, hl0, heq⟩ := mem_ListLogs s context l hwf hl
      rw [hid, hp] at hq
      cases hq
      refine ⟨l0, hl0, ?_⟩
      rw [heq] at hst
      exact hst
  have hfin := runEvents_DoneAt s evs id hc hdone
  have hwf1 := runEvents_WF s evs hwf
  refine ⟨?_, ?_⟩
  · intro h
    obtain ⟨p, l, hp, hl, hst⟩ := observedState_LoadLogDetails _ id context1 _ h
    obtain ⟨l1, hl1, hst1⟩ := hfin p hp
    rw [hl] at hl1
    cases hl1
    rw [hst] at hst1
    exact absurd hst1 (by decide)
  · intro l hl hid hst
    obtain ⟨q, l0, hq, hl0, heq⟩ := mem_ListLogs _ context1 l hwf1 hl
    rw [hid] at hq
    obtain ⟨l1, hl1, hst1⟩ := hfin q hq
    rw [hl0] at hl1
    cases hl1
    rw [heq] at hst
    have : ("creating" : String) = "created" := hst.symm.trans hst1
    exact absurd this (by decide)

theorem state_never_back_to_creating_witness :
    observedState (LoadLogDetails (runEvents (NewServer (.ok ["rancher-logs-111.zip"]))
      [.get (some "111") "http://h/v1/logs/111", .create 5, .collect 1 (some "exit status 1"),
        .delete (some "5")]) (some "111") "http://h/v1/logs/111").2 ≠ some "creating" ∧
    ∀ l ∈ ListLogs (runEvents (NewServer (.ok ["rancher-logs-111.zip"]))
      [.get (some "111") "http://h/v1/logs/111", .create 5, .collect 1 (some "exit status 1"),
        .delete (some "5")]) "http://h/v1/logs/111", l.Id = "111" → l.State ≠ "creating" :=
  state_never_back_to_creating (NewServer (.ok ["rancher-logs-111.zip"])) "111"
    "http://h/v1/logs/111" "http://h/v1/logs/111"
    [.get (some "111") "http://h/v1/logs/111", .create 5, .collect 1 (some "exit status 1"),
      .delete (some "5")]
    (by decide) (Or.inl (by decide))
    (by
      intro now h
      simp only [List.mem_cons, Event.create.injEq, List.mem_singleton, reduceCtorEq,
        false_or, or_false, List.not_mem_nil] at h
      subst h
      decide)

/-- C3 fails as stated: a record is created and collected, `LoadLogDetails` shows it
`created`; a second creation reading the same clock value registers a new record under
the same id, and `LoadLogDetails` of that id shows `creating`. -/
theorem created_then_creating_again :
    observedState (LoadLogDetails (runEvents emptyServer
      [.create 1700000000000000000, .collect 0 none])
      (some "1700000000000000000") "http://h/v1/logs/1700000000000000000").2 = some "created" ∧
    observedState (LoadLogDetails (runEvents emptyServer
      [.create 1700000000000000000, .collect 0 none,
        .get (some "1700000000000000000") "http://h/v1/logs/1700000000000000000",
        .create 1700000000000000000])
      (some "1700000000000000000") "http://h/v1/logs/1700000000000000000").2 = some "creating" := by
  decide

/-! ## The collector -/

theorem step_collect_success (s : Server) (p : Nat) (l : Log) (hp : s.heap[p]? = some l) :
    (step s (.collect p none)).1 =
      { s with heap := s.heap.set p { l with State := "created" } } := by
  show (collectLogs s p (fun _ => none)).1 = _
  rw [collectLogs_success s p _ l hp rfl]

/-- C5, as the code has it: a job is created at clock reading `now`; if no other
creation reads the same clock value and the job's id is not deleted, then after the
collector of that job succeeded, and whatever other events came before and after,
`LoadLogDetails` of the job's id answers a record with state `created`. -/
theorem collector_success_then_created (s : Server) (now : Int) (evs1 evs2 : List Event)
    (context : String)
    (hc : ∀ t, Event.create t ∈ evs1 ++ evs2 → t ≠ now)
    (hd : Event.delete (some (Itoa now)) ∉ evs1 ++ evs2) :
    observedState (LoadLogDetails
      (runEvents s (.create now :: evs1 ++ .collect (createLog s now).2 none :: evs2))
      (some (Itoa now)) context).2 = some "created" := by
  have hc1 : ∀ t, Event.create t ∈ evs1 → Itoa t ≠ Itoa now :=
    fun t ht h => hc t (List.mem_append_left _ ht) (Itoa_injective _ _ h)
  have hc2 : ∀ t, Event.create t ∈ evs2 → Itoa t ≠ Itoa now :=
    fun t ht h => hc t (List.mem_append_right _ ht) (Itoa_injective _ _ h)
  have hd1 : Event.delete (some (Itoa now)) ∉ evs1 := fun h => hd (List.mem_append_left _ h)
  have hd2 : Event.delete (some (Itoa now)) ∉ evs2 := fun h => hd (List.mem_append_right _ h)
  rw [List.cons_append, runEvents_cons, runEvents_append, runEvents_cons]
  show observedState (LoadLogDetails (runEvents (step (runEvents (createLog s now).1 evs1)
    (.collect (createLog s now).2 none)).1 evs2) (some (Itoa now)) context).2 = some "created"
  have hg1 : mapGet (createLog s now).1.logs (Itoa now) = some (createLog s now).2 := by
    rw [createLog_fst, createLog_snd]
    exact mapGet_mapSet_self _ _ _
  have hg2 : mapGet (runEvents (createLog s now).1 evs1).logs (Itoa now) =
      some (createLog s now).2 := by
    rw [runEvents_mapGet _ evs1 _ hc1 hd1, hg1]
  obtain ⟨l2, hl2, _, _, _⟩ :=
    runEvents_heapExt (createLog s now).1 evs1 _ _ (createLog_heap_at s now)
  have hlt : (createLog s now).2 < (runEvents (createLog s now).1 evs1).heap.length :=
    (List.getElem?_eq_some.mp hl2).1
  have hdone : DoneAt (step (runEvents (createLog s now).1 evs1)
      (.collect (createLog s now).2 none)).1 (Itoa now) := by
    intro q hq
    rw [step_collect_success _ _ l2 hl2] at hq ⊢
    have hq1 : mapGet (runEvents (createLog s now).1 evs1).logs (Itoa now) = some q := hq
    rw [hg2] at hq1
    cases hq1
    exact ⟨_, List.getElem?_set_self hlt, rfl⟩
  have hg3 : mapGet (runEvents (step (runEvents (createLog s now).1 evs1)
      (.collect (createLog s now).2 none)).1 evs2).logs (Itoa now) =
      some (createLog s now).2 := by
    rw [runEvents_mapGet _ evs2 _ hc2 hd2, step_mapGet _ _ _ (fun _ h => by cases h)
      (fun h => by cases h), hg2]
  obtain ⟨l, hl, hst⟩ := runEvents_DoneAt _ evs2 _ hc2 hdone _ hg3
  rw [LoadLogDetails_found _ _ context _ l hg3 hl]
  simpa [observedState] using hst

theorem collector_success_then_created_witness :
    observedState (LoadLogDetails
      (runEvents emptyServer (.create 5 :: [.create 6, .get (some "5") "http://h/v1/logs/5"] ++
        .collect (createLog emptyServer 5).2 none :: [.delete (some "6"), .list "http://h/v1/logs"]))
      (some (Itoa 5)) "http://h/v1/logs/5").2 = some "created" :=
  collector_success_then_created emptyServer 5
    [.create 6, .get (some "5") "http://h/v1/logs/5"]
    [.delete (some "6"), .list "http://h/v1/logs"] "http://h/v1/logs/5"
    (by
      intro t h
      simp only [List.cons_append, List.nil_append, List.mem_cons, Event.create.injEq,
        List.mem_singleton, reduceCtorEq, false_or, or_false, List.not_mem_nil] at h
      subst h
      decide)
    (by decide)

/-- C5 fails as stated: two creations read the same clock value, the collector of the
first one succeeds, and `LoadLogDetails` of the job's id still shows `creating`, the
state of the second record, which replaced the first in the registry. -/
theorem collector_success_still_creating :
    observedState (LoadLogDetails (runEvents emptyServer
      [.create 1700000000000000000, .create 1700000000000000000,
        .collect (createLog emptyServer 1700000000000000000).2 none])
      (some (Itoa 1700000000000000000)) "http://h/v1/logs/1700000000000000000").2 =
      some "creating" := by
  decide

/-- C9: when the external command fails (`cmd.Run()` returns an error, at launch or
for a nonzero exit status), `collectLogs` returns that error and changes nothing: the
server is the same, and a record that was `creating` still is. -/
theorem collectLogs_failure_keeps_creating (s : Server) (p : Nat) (l : Log)
    (run : List String → Option String) (err : String)
    (hp : s.heap[p]? = some l) (hst : l.State = "creating")
    (hr : run ["logs-collector.sh", "/logs", l.FileName, Itoa s.historyLength] = some err) :
    collectLogs s p run = (s, some err) ∧
    ((collectLogs s p run).1.heap[p]?).map Log.State = some "creating" ∧
    (collectLogs s p run).1.logs = s.logs := by
  rw [collectLogs_failure s p run l err hp hr]
  exact ⟨rfl, by simp [hp, hst], rfl⟩

theorem collectLogs_failure_keeps_creating_witness :
    collectLogs (createLog emptyServer 5).1 0 (fun _ => some "exit status 1") =
      ((createLog emptyServer 5).1, some "exit status 1") ∧
    ((collectLogs (createLog emptyServer 5).1 0 (fun _ => some "exit status 1")).1.heap[0]?).map
      Log.State = some "creating" ∧
    (collectLogs (createLog emptyServer 5).1 0 (fun _ => some "exit status 1")).1.logs =
      (createLog emptyServer 5).1.logs :=
  collectLogs_failure_keeps_creating (createLog emptyServer 5).1 0 (NewLog 5)
    (fun _ => some "exit status 1") "exit status 1" (by decide) (by decide) rfl

/-- The success step of a collector whose record no entry of the map points at
returns no error and changes neither the map nor a record the map points at. -/
theorem collectLogs_unreferenced (s : Server) (p : Nat) (l : Log)
    (hp : s.heap[p]? = some l) (hun : ∀ e ∈ s.logs, e.2 ≠ p) :
    (collectLogs s p (fun _ => none)).2 = none ∧
    (collectLogs s p (fun _ => none)).1.logs = s.logs ∧
    ∀ e ∈ s.logs, (collectLogs s p (fun _ => none)).1.heap[e.2]? = s.heap[e.2]? := by
  rw [collectLogs_success s p _ l hp rfl]
  exact ⟨rfl, rfl, fun e he => List.getElem?_set_ne (fun h => hun e he h.symm)⟩

/-- An allocated record that no entry points at stays so: a creation registers a
freshly allocated address, and no other event adds an entry. -/
theorem step_unreferenced (s : Server) (e : Event) (p : Nat) (l : Log)
    (hp : s.heap[p]? = some l) (hun : ∀ x ∈ s.logs, x.2 ≠ p) :
    ∀ x ∈ (step s e).1.logs, x.2 ≠ p := by
  intro x hx
  rw [step_logs] at hx
  cases e with
  | create now =>
    rcases (mem_mapSet _ _ _ _).mp hx with h1 | h1
    · exact hun x h1.1
    · subst h1
      have hlt : p < s.heap.length := (List.getElem?_eq_some.mp hp).1
      exact fun h => absurd h (Nat.ne_of_gt hlt)
  | delete vars =>
    cases vars with
    | none => exact hun x hx
    | some logID => exact hun x ((mem_mapDelete _ _ _).mp hx).1
  | write q => exact hun x hx
  | collect q result => exact hun x hx
  | get vars context => exact hun x hx
  | list context => exact hun x hx

theorem runEvents_unreferenced (s : Server) (evs : List Event) (p : Nat) (l : Log)
    (hp : s.heap[p]? = some l) (hun : ∀ x ∈ s.logs, x.2 ≠ p) :
    ∀ x ∈ (runEvents s evs).logs, x.2 ≠ p := by
  induction evs generalizing s l with
  | nil => exact hun
  | cons e evs ih =>
    rw [runEvents_cons]
    obtain ⟨l1, hl1, _, _, _⟩ := step_heapExt s e p l hp
    exact ih _ l1 hl1 (step_unreferenced s e p l hp hun)

/-- C10, as the code has it: a job is created at clock reading `now` in a well-formed
registry and its id is deleted; whatever events come before and after the deletion,
the success step of the job's collector returns no error and leaves the map, every
record the map points at and every listing unchanged.  It does not register the id:
when no creation after the deletion read the same clock value, `LoadLogDetails` of
the id answers 404 after the success step. -/
theorem collector_success_after_delete (s : Server) (now : Int) (evs1 evs2 : List Event)
    (context : String) (hwf : WF s) :
    (collectLogs (runEvents s (createThenDelete now evs1 evs2))
      (createLog s now).2 (fun _ => none)).2 = none ∧
    (collectLogs (runEvents s (createThenDelete now evs1 evs2))
      (createLog s now).2 (fun _ => none)).1.logs =
      (runEvents s (createThenDelete now evs1 evs2)).logs ∧
    (∀ e ∈ (runEvents s (createThenDelete now evs1 evs2)).logs,
      (collectLogs (runEvents s (createThenDelete now evs1 evs2))
        (createLog s now).2 (fun _ => none)).1.heap[e.2]? =
      (runEvents s (createThenDelete now evs1 evs2)).heap[e.2]?) ∧
    ListLogs (collectLogs (runEvents s (createThenDelete now evs1 evs2))
      (createLog s now).2 (fun _ => none)).1 context =
      ListLogs (runEvents s (createThenDelete now evs1 evs2)) context ∧
    ((∀ t, Event.create t ∈ evs2 → t ≠ now) →
      (LoadLogDetails (collectLogs (runEvents s (createThenDelete now evs1 evs2))
        (createLog s now).2 (fun _ => none)).1 (some (Itoa now)) context).2 =
        .error 404 "log not found") := by
  have hsplit : runEvents s (createThenDelete now evs1 evs2) =
      runEvents (step (runEvents (createLog s now).1 evs1) (.delete (some (Itoa now)))).1
        evs2 := by
    unfold createThenDelete
    rw [List.cons_append, runEvents_cons, runEvents_append, runEvents_cons]
    rfl
  have hwfd : WF (step (runEvents (createLog s now).1 evs1) (.delete (some (Itoa now)))).1 :=
    step_WF _ _ (runEvents_WF _ evs1 (step_WF s (.create now) hwf))
  have hnoned : mapGet (step (runEvents (createLog s now).1 evs1)
      (.delete (some (Itoa now)))).1.logs (Itoa now) = none := by
    rw [step_logs]
    exact mapGet_mapDelete_self _ _
  obtain ⟨l1, hl1, hid1, _, _⟩ :=
    runEvents_heapExt (createLog s now).1 evs1 _ _ (createLog_heap_at s now)
  obtain ⟨ld, hld, hidd, _, _⟩ := step_heapExt (runEvents (createLog s now).1 evs1)
    (.delete (some (Itoa now))) _ l1 hl1
  have hund : ∀ x ∈ (step (runEvents (createLog s now).1 evs1)
      (.delete (some (Itoa now)))).1.logs, x.2 ≠ (createLog s now).2 := by
    intro x hx h
    have h1 := hwfd.2 x hx
    rw [h, hld] at h1
    simp only [Option.map_some', Option.some.injEq] at h1
    refine (mapGet_eq_none_iff _ _).mp hnoned x hx ?_
    rw [← h1, hidd, hid1]
    rfl
  obtain ⟨l, hl, _, _, _⟩ := runEvents_heapExt _ evs2 _ ld hld
  have hun := runEvents_unreferenced _ evs2 _ ld hld hund
  rw [← hsplit] at hl hun
  obtain ⟨h1, h2, h3⟩ := collectLogs_unreferenced _ _ l hl hun
  refine ⟨h1, h2, h3, ?_, ?_⟩
  · unfold ListLogs
    rw [h2]
    apply List.filterMap_congr
    intro e he
    rw [h3 e he]
  · intro hc
    have hnone : mapGet (runEvents s (createThenDelete now evs1 evs2)).logs (Itoa now) =
        none := by
      rw [hsplit]
      exact runEvents_mapGet_none _ evs2 _ (fun t ht h => hc t ht (Itoa_injective _ _ h)) hnoned
    rw [LoadLogDetails_missing _ _ context (by rw [h2]; exact hnone)]

theorem collector_success_after_delete_witness :
    WF (createLog emptyServer 4).1 ∧
    (collectLogs (runEvents (createLog emptyServer 4).1
        (createThenDelete 5 [.list "http://h/v1/logs"] [.create 6]))
      (createLog (createLog emptyServer 4).1 5).2 (fun _ => none)).2 = none ∧
    (collectLogs (runEvents (createLog emptyServer 4).1
        (createThenDelete 5 [.list "http://h/v1/logs"] [.create 6]))
      (createLog (createLog emptyServer 4).1 5).2 (fun _ => none)).1.logs =
      (runEvents (createLog emptyServer 4).1
        (createThenDelete 5 [.list "http://h/v1/logs"] [.create 6])).logs ∧
    ListLogs (collectLogs (runEvents (createLog emptyServer 4).1
        (createThenDelete 5 [.list "http://h/v1/logs"] [.create 6]))
      (createLog (createLog emptyServer 4).1 5).2 (fun _ => none)).1 "http://h/v1/logs" =
      ListLogs (runEvents (createLog emptyServer 4).1
        (createThenDelete 5 [.list "http://h/v1/logs"] [.create 6])) "http://h/v1/logs" ∧
    (LoadLogDetails (collectLogs (runEvents (createLog emptyServer 4).1
        (createThenDelete 5 [.list "http://h/v1/logs"] [.create 6]))
      (createLog (createLog emptyServer 4).1 5).2 (fun _ => none)).1
      (some (Itoa 5)) "http://h/v1/logs").2 = .error 404 "log not found" :=
  have h := collector_success_after_delete (createLog emptyServer 4).1 5
    [.list "http://h/v1/logs"] [.create 6] "http://h/v1/logs" (by decide)
  ⟨by decide, h.1, h.2.1, h.2.2.2.1, h.2.2.2.2 (by
    intro t ht
    simp only [List.mem_singleton, Event.create.injEq] at ht
    subst ht
    decide)⟩

/-- C10 fails as stated: a job is created, its id is deleted (answer 200), a creation
reading the same clock value registers the id again, and then the first job's
collector succeeds.  The success step returns no error and changes no registered
record, but `LoadLogDetails` of the id after it answers the second record, not 404. -/
theorem recreated_id_found_after_collector_success :
    (DeleteLog (runEvents emptyServer [.create 1700000000000000000])
      (some (Itoa 1700000000000000000))).2 = .status 200 ∧
    (collectLogs (runEvents emptyServer
        (createThenDelete 1700000000000000000 [] [.create 1700000000000000000]))
      (createLog emptyServer 1700000000000000000).2 (fun _ => none)).2 = none ∧
    observedState (LoadLogDetails (collectLogs (runEvents emptyServer
        (createThenDelete 1700000000000000000 [] [.create 1700000000000000000]))
      (createLog emptyServer 1700000000000000000).2 (fun _ => none)).1
      (some (Itoa 1700000000000000000)) "http://h/v1/logs/1700000000000000000").2 =
      some "creating" := by
  decide

/-! ## Responses that share the stored record -/

/-- C4 on the code: `GenerateLog` starts the collector before it writes its response,
and the response is serialised from the shared record.  When the collector's success
step comes before the response write, the response of the creation carries state
`created`; when nothing runs in between, it carries `creating`. -/
theorem GenerateLog_response_after_collector :
    (step (runEvents emptyServer [.create 1700000000000000000, .collect 0 none]) (.write 0)).2 =
      .log { Id := "1700000000000000000"
             ResourceType := "log"
             FileName := "rancher-logs-1700000000000000000"
             State := "created"
             DownloadURL := ""
             Self := "1700000000000000000" } ∧
    (GenerateLog emptyServer 1700000000000000000).2 =
      .log { Id := "1700000000000000000"
             ResourceType := "log"
             FileName := "rancher-logs-1700000000000000000"
             State := "creating"
             DownloadURL := ""
             Self := "1700000000000000000" } := by
  decide

/-- C8 on the code: `LoadLogDetails` writes the download URL it computed into the
record stored in the registry, while `ListLogs` works on copies and stores nothing. -/
theorem LoadLogDetails_stores_DownloadURL :
    (NewServer (.ok ["rancher-logs-111.zip"])).heap.map Log.DownloadURL =
      ["http://rancher-logs-111.zip"] ∧
    (LoadLogDetails (NewServer (.ok ["rancher-logs-111.zip"])) (some "111")
      "http://host:8080/v1/logs/111").1.heap.map Log.DownloadURL =
      ["http://host:8080/v1/logs/111/rancher-logs-111.zip"] ∧
    (step (NewServer (.ok ["rancher-logs-111.zip"])) (.list "http://host:8080/v1/logs")).1 =
      NewServer (.ok ["rancher-logs-111.zip"]) := by
  decide

/-! ## Startup reconciliation -/

theorem matchLiteral_append (lit r : List Char) : matchLiteral lit (lit ++ r) = some r := by
  induction lit with
  | nil => cases r <;> rfl
  | cons c cs ih => simp [matchLiteral, ih]

theorem matchStarThen_append_zip (cs : List Char) (h : '\n' ∉ cs) :
    matchStarThen (cs ++ ".zip".data) = some (cs, ".zip".data) := by
  induction cs with
  | nil => decide
  | cons c cs ih =>
    have hc : c ≠ '\n' := fun e => h (by rw [e]; exact List.mem_cons_self _ _)
    have hcs : '\n' ∉ cs := fun e => h (List.mem_cons_of_mem _ e)
    simp [matchStarThen, hc, ih hcs]

theorem findFrom_of_matchHere (s : List Char) (m : List String) (hs : s ≠ [])
    (h : matchHere s = some m) : findFrom s = m := by
  cases s with
  | nil => exact absurd rfl hs
  | cons c cs => simp [findFrom, h]

theorem String_mk_append (a b : List Char) : String.mk (a ++ b) = String.mk a ++ String.mk b := by
  apply String.ext
  simp

/-- On a name `rancher-logs-<id>.zip` whose id has no newline, the pattern matches the
whole name, group 1 is the name without `.zip` and group 2 is the id. -/
theorem FindStringSubmatch_archive (id : String) (h : '\n' ∉ id.data) :
    FindStringSubmatch ("rancher-logs-" ++ id ++ ".zip") =
      ["rancher-logs-" ++ id ++ ".zip", "rancher-logs-" ++ id, id] := by
  have hdata : ("rancher-logs-" ++ id ++ ".zip").data =
      rancherLogsLiteral ++ (id.data ++ ".zip".data) := by
    simp [rancherLogsLiteral]
  have hne : rancherLogsLiteral ++ (id.data ++ ".zip".data) ≠ [] := by
    simp [rancherLogsLiteral]
  unfold FindStringSubmatch
  rw [hdata]
  apply findFrom_of_matchHere _ _ hne
  unfold matchHere
  rw [matchLiteral_append]
  simp only [matchStarThen_append_zip id.data h]
  simp only [String_mk_append, rancherLogsLiteral]

/-- Whatever name matched, group 1 is `rancher-logs-` followed by group 2. -/
theorem findFrom_groups (s : List Char) (m0 m1 m2 : String) (h : findFrom s = [m0, m1, m2]) :
    m1 = "rancher-logs-" ++ m2 := by
  induction s with
  | nil => simp [findFrom] at h
  | cons c cs ih =>
    unfold findFrom at h
    cases hm : matchHere (c :: cs) with
    | none =>
      rw [hm] at h
      exact ih h
    | some m =>
      rw [hm] at h
      simp only at h
      subst h
      unfold matchHere at hm
      cases h1 : matchLiteral rancherLogsLiteral (c :: cs) with
      | none => simp [h1] at hm
      | some r =>
        cases h2 : matchStarThen r with
        | none => simp [h1, h2] at hm
        | some gt =>
          obtain ⟨g, t⟩ := gt
          simp only [h1, h2, Option.some.injEq, List.cons.injEq, and_true] at hm
          rw [← hm.2.1, ← hm.2.2, String_mk_append]
          rfl

/-- One turn of the startup loop either skips the name or registers, under some id,
the record built from `rancher-logs-<id>` and that id. -/
theorem getLogsOnStartStep_cases (acc : List Log × LogMap) (name : String) :
    (FindStringSubmatch name).length ≠ 3 ∧ getLogsOnStartStep acc name = acc ∨
    ∃ m0 k : String, FindStringSubmatch name = [m0, "rancher-logs-" ++ k, k] ∧
      getLogsOnStartStep acc name =
        (acc.1 ++ [startLog ("rancher-logs-" ++ k) k], mapSet acc.2 k acc.1.length) := by
  unfold getLogsOnStartStep
  cases hm : FindStringSubmatch name with
  | nil => exact Or.inl ⟨by simp, rfl⟩
  | cons a l1 =>
    cases l1 with
    | nil => exact Or.inl ⟨by simp, rfl⟩
    | cons b l2 =>
      cases l2 with
      | nil => exact Or.inl ⟨by simp, rfl⟩
      | cons c l3 =>
        cases l3 with
        | nil =>
          have hb := findFrom_groups name.data a b c hm
          subst hb
          exact Or.inr ⟨a, c, rfl, rfl⟩
        | cons d l4 => exact Or.inl ⟨by simp, rfl⟩

theorem getLogsOnStartStep_inv (acc : List Log × LogMap) (name : String)
    (h : (acc.2.map Prod.fst).Nodup ∧
      ∀ e ∈ acc.2, acc.1[e.2]? = some (startLog ("rancher-logs-" ++ e.1) e.1)) :
    ((getLogsOnStartStep acc name).2.map Prod.fst).Nodup ∧
      ∀ e ∈ (getLogsOnStartStep acc name).2,
        (getLogsOnStartStep acc name).1[e.2]? = some (startLog ("rancher-logs-" ++ e.1) e.1) := by
  rcases getLogsOnStartStep_cases acc name with ⟨_, h1⟩ | ⟨m0, k, _, h1⟩
  · rw [h1]
    exact h
  · rw [h1]
    refine ⟨mapSet_keys_nodup _ _ _ h.1, ?_⟩
    intro e he
    rcases (mem_mapSet _ _ _ _).mp he with h2 | h2
    · have h3 := h.2 e h2.1
      have hlt : e.2 < acc.1.length := (List.getElem?_eq_some.mp h3).1
      show (acc.1 ++ [startLog ("rancher-logs-" ++ k) k])[e.2]? = _
      rw [List.getElem?_append_left hlt]
      exact h3
    · subst h2
      exact List.getElem?_concat_length _ _

theorem getLogsOnStartStep_present (acc : List Log × LogMap) (name id : String)
    (h : (mapGet acc.2 id).isSome = true) :
    (mapGet (getLogsOnStartStep acc name).2 id).isSome = true := by
  rcases getLogsOnStartStep_cases acc name with ⟨_, h1⟩ | ⟨m0, k, _, h1⟩
  · rw [h1]
    exact h
  · rw [h1]
    by_cases hk : id = k
    · subst hk
      show (mapGet (mapSet acc.2 id acc.1.length) id).isSome = true
      rw [mapGet_mapSet_self]
      rfl
    · show (mapGet (mapSet acc.2 k acc.1.length) id).isSome = true
      rw [mapGet_mapSet_ne _ _ _ _ hk]
      exact h

theorem foldl_getLogsOnStartStep_inv (files : List String) (acc : List Log × LogMap)
    (h : (acc.2.map Prod.fst).Nodup ∧
      ∀ e ∈ acc.2, acc.1[e.2]? = some (startLog ("rancher-logs-" ++ e.1) e.1)) :
    ((files.foldl getLogsOnStartStep acc).2.map Prod.fst).Nodup ∧
      ∀ e ∈ (files.foldl getLogsOnStartStep acc).2,
        (files.foldl getLogsOnStartStep acc).1[e.2]? =
          some (startLog ("rancher-logs-" ++ e.1) e.1) := by
  induction files generalizing acc with
  | nil => exact h
  | cons f files ih => exact ih _ (getLogsOnStartStep_inv acc f h)

theorem foldl_getLogsOnStartStep_present (files : List String) (acc : List Log × LogMap)
    (id : String) (h : (mapGet acc.2 id).isSome = true) :
    (mapGet (files.foldl getLogsOnStartStep acc).2 id).isSome = true := by
  induction files generalizing acc with
  | nil => exact h
  | cons f files ih => exact ih _ (getLogsOnStartStep_present acc f id h)

theorem foldl_getLogsOnStartStep_mem (files : List String) (acc : List Log × LogMap)
    (name m0 m1 id : String) (hmem : name ∈ files)
    (hm : FindStringSubmatch name = [m0, m1, id]) :
    (mapGet (files.foldl getLogsOnStartStep acc).2 id).isSome = true := by
  induction files generalizing acc with
  | nil => simp at hmem
  | cons f files ih =>
    rcases List.mem_cons.mp hmem with h1 | h1
    · subst h1
      refine foldl_getLogsOnStartStep_present files _ id ?_
      unfold getLogsOnStartStep
      rw [hm]
      show (mapGet (mapSet acc.2 id acc.1.length) id).isSome = true
      rw [mapGet_mapSet_self]
      rfl
    · exact ih _ h1

/-- The registry built at startup is well formed. -/
theorem NewServer_WF (readDir : Except String (List String)) : WF (NewServer readDir) := by
  cases readDir with
  | error e => exact ⟨List.nodup_nil, fun e he => by cases he⟩
  | ok files =>
    have h := foldl_getLogsOnStartStep_inv files ([], [])
      ⟨List.nodup_nil, fun e he => by cases he⟩
    refine ⟨h.1, ?_⟩
    intro e he
    show (((files.foldl getLogsOnStartStep ([], [])).1)[e.2]?).map Log.Id = some e.1
    rw [h.2 e he]
    rfl

/-- C6: when the directory listing contains `rancher-logs-<id>.zip` (no newline in
`id`), the registry built at startup has exactly one entry under key `id`, and its
record has that `Id`, `FileName` `rancher-logs-<id>` and state `created`.  A listing
of `garbage.txt` and `rancher-logs-111.zip` gives exactly one record, id `111`. -/
theorem getLogsOnStart_archive_registered (id : String) (files : List String)
    (hnl : '\n' ∉ id.data) (hmem : "rancher-logs-" ++ id ++ ".zip" ∈ files) :
    (∃ p : Nat, mapGet (NewServer (.ok files)).logs id = some p ∧
      (NewServer (.ok files)).heap[p]? =
        some { Id := id
               ResourceType := "log"
               FileName := "rancher-logs-" ++ id
               State := "created"
               DownloadURL := "http://" ++ ("rancher-logs-" ++ id) ++ ".zip"
               Self := id }) ∧
    ((NewServer (.ok files)).logs.map Prod.fst).count id = 1 ∧
    NewServer (.ok ["garbage.txt", "rancher-logs-111.zip"]) =
      { port := 8080
        historyLength := -1
        heap := [{ Id := "111"
                   ResourceType := "log"
                   FileName := "rancher-logs-111"
                   State := "created"
                   DownloadURL := "http://rancher-logs-111.zip"
                   Self := "111" }]
        logs := [("111", 0)] } := by
  have hinv := foldl_getLogsOnStartStep_inv files ([], [])
    ⟨List.nodup_nil, fun e he => by cases he⟩
  have hsome := foldl_getLogsOnStartStep_mem files ([], []) _ _ _ id hmem
    (FindStringSubmatch_archive id hnl)
  obtain ⟨p, hp⟩ := Option.isSome_iff_exists.mp hsome
  have hin : (id, p) ∈ (files.foldl getLogsOnStartStep ([], [])).2 := mapGet_mem _ _ _ hp
  refine ⟨⟨p, hp, ?_⟩, ?_, by decide⟩
  · exact hinv.2 (id, p) hin
  · exact List.count_eq_one_of_mem hinv.1 (List.mem_map.mpr ⟨(id, p), hin, rfl⟩)

theorem getLogsOnStart_archive_registered_witness :
    (∃ p : Nat, mapGet (NewServer (.ok ["notes.txt", "rancher-logs-42.zip"])).logs "42" = some p ∧
      (NewServer (.ok ["notes.txt", "rancher-logs-42.zip"])).heap[p]? =
        some { Id := "42"
               ResourceType := "log"
               FileName := "rancher-logs-" ++ "42"
               State := "created"
               DownloadURL := "http://" ++ ("rancher-logs-" ++ "42") ++ ".zip"
               Self := "42" }) ∧
    ((NewServer (.ok ["notes.txt", "rancher-logs-42.zip"])).logs.map Prod.fst).count "42" = 1 ∧
    NewServer (.ok ["garbage.txt", "rancher-logs-111.zip"]) =
      { port := 8080
        historyLength := -1
        heap := [{ Id := "111"
                   ResourceType := "log"
                   FileName := "rancher-logs-111"
                   State := "created"
                   DownloadURL := "http://rancher-logs-111.zip"
                   Self := "111" }]
        logs := [("111", 0)] } :=
  getLogsOnStart_archive_registered "42" ["notes.txt", "rancher-logs-42.zip"]
    (by decide) (by decide)

/-- C7 on the code: the pattern is not anchored and its `.` stands for any character,
so a name with text before the marker, with text after `zip`, or with another
character in place of the dot is registered too, under an archive name that is not the
name of the file. -/
theorem getLogsOnStart_registers_other_names :
    NewServer (.ok ["notes-rancher-logs-7.zipped", "rancher-logs-8xzip"]) =
      { port := 8080
        historyLength := -1
        heap := [{ Id := "7"
                   ResourceType := "log"
                   FileName := "rancher-logs-7"
                   State := "created"
                   DownloadURL := "http://rancher-logs-7.zip"
                   Self := "7" },
                 { Id := "8"
                   ResourceType := "log"
                   FileName := "rancher-logs-8"
                   State := "created"
                   DownloadURL := "http://rancher-logs-8.zip"
                   Self := "8" }]
        logs := [("7", 0), ("8", 1)] } := by
  decide

end NetworkDiagnostics
